import Mathlib

/-!
Verification of the acid-store object repository core against its
natural-language specification.

The development is a shallow embedding of the repository code: block IDs,
handle IDs and chunk hashes are `Nat`, maps are association lists, sets of
handle IDs are `Finset Nat`, and byte strings whose internal structure the
claims depend on (serialized headers, encoder output) are a symbolic `Bytes`
type.  Functions that can hit an `expect`/`unwrap` in the source return
`Option`, with `none` standing for the process aborting.  Modules of the
repository that are not part of the provided sources (the id-table, metadata
and chunk-store modules) are modelled from the specification; each such
definition says so in its doc comment.
-/

set_option autoImplicit false

namespace AcidStore

/-- Lookup in an association list (models `HashMap::get`). -/
def alLookup {κ ν : Type} [DecidableEq κ] : List (κ × ν) → κ → Option ν
  | [], _ => none
  | (k, v) :: rest, key => if k = key then some v else alLookup rest key

/-- Insert-or-replace in an association list (models `HashMap::insert`). -/
def alInsert {κ ν : Type} [DecidableEq κ] : List (κ × ν) → κ → ν → List (κ × ν)
  | [], key, val => [(key, val)]
  | (k, v) :: rest, key, val =>
      if k = key then (key, val) :: rest else (k, v) :: alInsert rest key val

/-- Removal from an association list (models `HashMap::remove`). -/
def alRemove {κ ν : Type} [DecidableEq κ] : List (κ × ν) → κ → List (κ × ν)
  | [], _ => []
  | (k, v) :: rest, key => if k = key then rest else (k, v) :: alRemove rest key

/-- Modelled from the spec: the handle-ID table, "a compact allocator recycling
freed IDs" (§3, §4.6, §4.7); the `id_table` module is not among the provided
sources.  `nextId` is the high-water mark; `unused` is the pool of recycled IDs
below it. -/
structure IdTable where
  nextId : Nat
  unused : List Nat
deriving DecidableEq

/-- Whether `id` is the ID of an existing handle. -/
def IdTable.contains (t : IdTable) (id : Nat) : Bool :=
  decide (id < t.nextId) && !(decide (id ∈ t.unused))

/-- Allocate an ID: draw from the recycled pool if possible, otherwise mint a
fresh ID above the high-water mark.  Returns the ID and the updated table. -/
def IdTable.next : IdTable → Nat × IdTable
  | ⟨n, []⟩ => (n, ⟨n + 1, []⟩)
  | ⟨n, id :: rest⟩ => (id, ⟨n, rest⟩)

/-- Return an ID to the recycled pool. -/
def IdTable.recycle (t : IdTable) (id : Nat) : IdTable :=
  ⟨t.nextId, id :: t.unused⟩

/-- A key of the chunk map: content hash plus recorded size.  The `object`
module defining it is not among the provided sources; the fields are the ones
`repository.rs` uses (`chunk.hash`, `chunk.size`). -/
structure Chunk where
  hash : Nat
  size : Nat
deriving DecidableEq

/-- A chunk-map entry (spec §3): the block holding the chunk and the reference
set of handle IDs. -/
structure ChunkInfo where
  blockId : Nat
  references : Finset Nat
deriving DecidableEq

/-- A pack-map entry (spec §3, §4.4): the pack block a stored block lives in
and the byte range it occupies there. -/
structure PackIndex where
  id : Nat
  offset : Nat
  size : Nat
deriving DecidableEq

/-- The packing configuration (`Packing::None` / `Packing::Fixed`). -/
inductive Packing where
  | nopack
  | fixed (size : Nat)
deriving DecidableEq

/-- `ObjectHandle` (repository.rs:108-117): plain caller-held data naming an
unmanaged object. -/
structure ObjectHandle where
  repoId : Nat
  instanceId : Nat
  handleId : Nat
  size : Nat
  chunks : List Chunk
deriving DecidableEq

/-- Modelled from the spec: repository `Metadata` (§3); the `metadata` module
is not among the provided sources.  Only the fields `repository.rs` reads are
modelled: the repository ID, the current header block ID, and the packing
configuration; key-derivation material is elided. -/
structure Metadata where
  id : Nat
  headerId : Nat
  packing : Packing
deriving DecidableEq

/-- The serialized repository `Header` (spec §3, §4.8):
`{chunks, packs, managed, handle_table}`. -/
structure Header where
  chunks : List (Chunk × ChunkInfo)
  packs : List (Nat × List PackIndex)
  managed : List (Nat × List (Nat × ObjectHandle))
  handleTable : IdTable
deriving DecidableEq

/-- The error kinds of §7 that the modelled operations can produce. -/
inductive Err where
  | io
  | store
  | invalidData
  | corrupt
  | invalidSavepoint
deriving DecidableEq

/-- Modelled from the spec: symbolic byte strings (§4.2, §4.8).  `headerBytes`
is the binary serialization of a `Header`, `metaBytes` of a `Metadata`, and
`encoded` is the output of the keyed encoder pipeline (compress → encrypt);
the `state`/`chunk_store` modules holding `encode_data`/`decode_data` are not
among the provided sources. -/
inductive Bytes where
  | headerBytes (h : Header)
  | metaBytes (m : Metadata)
  | chunkBytes (data : List Nat)
  | encoded (b : Bytes)
deriving DecidableEq

/-- `RepoState` (spec §4.7): chunk map, pack map, metadata, and the
mutex-wrapped data store.  The store is an association list from block ID to
contents, together with a schedule of injected store faults (`true` means the
next write/remove fails with a store error); reads are modelled reliable. -/
structure RepoState where
  chunks : List (Chunk × ChunkInfo)
  packs : List (Nat × List PackIndex)
  metadata : Metadata
  store : List (Nat × Bytes)
  faults : List Bool
deriving DecidableEq

/-- `ObjectRepo` (repository.rs:53-76). -/
structure Repo where
  state : RepoState
  instanceId : Nat
  managed : List (Nat × List (Nat × ObjectHandle))
  handleTable : IdTable
  savepoints : List (Nat × ObjectHandle)
deriving DecidableEq

/-- The fixed metadata block ID (repository.rs:42-43). -/
def metadataBlockId : Nat := 0

/-- The fixed version block ID (repository.rs:46-47). -/
def versionBlockId : Nat := 1

/-- Modelled from the spec: `encode_data` (§4.2), the keyed
compress-then-encrypt pipeline over symbolic bytes. -/
def encodeData (b : Bytes) : Bytes := Bytes.encoded b

/-- Modelled from the spec: `decode_data` (§4.2); decoding anything that is not
encoder output fails with `InvalidData` (authentication failure). -/
def decodeData : Bytes → Except Err Bytes
  | Bytes.encoded b => Except.ok b
  | _ => Except.error Err.invalidData

/-- Deserializing a `Header` (`from_read`); `repository.rs` maps failure to
`Error::Corrupt` (repository.rs:528-529, 642-643). -/
def deserializeHeader : Bytes → Except Err Header
  | Bytes.headerBytes h => Except.ok h
  | _ => Except.error Err.corrupt

/-- `DataStore::write_block` through the mutex: consumes one fault-schedule
entry; on success inserts or overwrites the block. -/
def storeWrite (store : List (Nat × Bytes)) (faults : List Bool) (id : Nat)
    (b : Bytes) : List (Nat × Bytes) × List Bool × Option Err :=
  match faults with
  | true :: rest => (store, rest, some Err.store)
  | false :: rest => (alInsert store id b, rest, none)
  | [] => (alInsert store id b, [], none)

/-- `DataStore::remove_block` through the mutex, drawing on the same fault
schedule as writes. -/
def storeRemove (store : List (Nat × Bytes)) (faults : List Bool) (id : Nat) :
    List (Nat × Bytes) × List Bool × Option Err :=
  match faults with
  | true :: rest => (store, rest, some Err.store)
  | false :: rest => (alRemove store id, rest, none)
  | [] => (alRemove store id, [], none)

/-- `ObjectRepo::contains_unmanaged` (repository.rs:102-106). -/
def containsUnmanaged (r : Repo) (h : ObjectHandle) : Bool :=
  decide (h.repoId = r.state.metadata.id) && decide (h.instanceId = r.instanceId)
    && r.handleTable.contains h.handleId

/-- The chunk-map update loop of `remove_unmanaged` (repository.rs:133-143):
drop the handle ID from each listed chunk's reference set, removing chunks
whose reference set empties.  `none` models the source's `expect` aborting on
a chunk missing from the map. -/
def removeChunkRefs (handleId : Nat) :
    List (Chunk × ChunkInfo) → List Chunk → Option (List (Chunk × ChunkInfo))
  | cm, [] => some cm
  | cm, c :: rest =>
      match alLookup cm c with
      | none => none
      | some info =>
          let refs := info.references.erase handleId
          if refs = ∅ then removeChunkRefs handleId (alRemove cm c) rest
          else removeChunkRefs handleId (alInsert cm c { info with references := refs }) rest

/-- `ObjectRepo::remove_unmanaged` (repository.rs:128-148). -/
def removeUnmanaged (r : Repo) (h : ObjectHandle) : Option (Repo × Bool) :=
  if containsUnmanaged r h then
    match removeChunkRefs h.handleId r.state.chunks h.chunks with
    | none => none
    | some cm =>
        some ({ r with
                  state := { r.state with chunks := cm },
                  handleTable := r.handleTable.recycle h.handleId }, true)
  else some (r, false)

/-- The chunk-map update loop of `unmanaged_object_mut`
(repository.rs:203-211): each listed chunk's reference set drops the old
handle ID and gains the new one.  `none` models the source's `expect`
aborting. -/
def swapChunkRefs (oldId newId : Nat) :
    List (Chunk × ChunkInfo) → List Chunk → Option (List (Chunk × ChunkInfo))
  | cm, [] => some cm
  | cm, c :: rest =>
      match alLookup cm c with
      | none => none
      | some info =>
          swapChunkRefs oldId newId
            (alInsert cm c { info with references := insert newId (info.references.erase oldId) })
            rest

/-- `ObjectRepo::unmanaged_object_mut` (repository.rs:179-214), modelling the
copy-on-write handle/reference bookkeeping and returning the rewritten handle.
Outer `none` models the `expect` aborting; `some none` is the `None` return for
a handle not contained in the repository. -/
def unmanagedObjectMut (r : Repo) (h : ObjectHandle) :
    Option (Option (Repo × ObjectHandle)) :=
  if containsUnmanaged r h then
    let newId := r.handleTable.next.1
    let t2 := r.handleTable.next.2.recycle h.handleId
    match swapChunkRefs h.handleId newId r.state.chunks h.chunks with
    | none => none
    | some cm =>
        some (some ({ r with state := { r.state with chunks := cm }, handleTable := t2 },
          { h with handleId := newId }))
  else some none

/-- The managed-object map of the current instance; `none` models the unwrap in
`managed_map`/`managed_map_mut` (repository.rs:240-247) aborting. -/
def managedMapOf (r : Repo) : Option (List (Nat × ObjectHandle)) :=
  alLookup r.managed r.instanceId

/-- Store back the managed-object map of the current instance. -/
def setManagedMap (r : Repo) (mm : List (Nat × ObjectHandle)) : Repo :=
  { r with managed := alInsert r.managed r.instanceId mm }

/-- `ObjectRepo::copy_managed` (repository.rs:323-334): the source handle is
temporarily removed, cloned, and both are reinserted — the clone keeps the same
`handle_id` and no chunk references are added. -/
def copyManaged (r : Repo) (source dest : Nat) : Option (Repo × Bool) :=
  match managedMapOf r with
  | none => none
  | some mm =>
      match alLookup mm source with
      | none => some (r, false)
      | some oldHandle =>
          let mm1 := alInsert (alRemove mm source) source oldHandle
          some (setManagedMap r (alInsert mm1 dest oldHandle), true)

/-- `ObjectRepo::remove_managed` (repository.rs:279-286). -/
def removeManaged (r : Repo) (id : Nat) : Option (Repo × Bool) :=
  match managedMapOf r with
  | none => none
  | some mm =>
      match alLookup mm id with
      | none => some (r, false)
      | some handle =>
          match removeUnmanaged (setManagedMap r (alRemove mm id)) handle with
          | none => none
          | some (r2, _) => some (r2, true)

/-- `ObjectRepo::managed_object_mut` (repository.rs:309-317): both map lookups
are unwrapped, so an absent instance or object ID aborts (`none`) — the
function never takes a `None`-returning path (`some none`). -/
def managedObjectMut (r : Repo) (id : Nat) : Option (Option ObjectHandle) :=
  match alLookup r.managed r.instanceId with
  | none => none
  | some mm =>
      match alLookup mm id with
      | none => none
      | some h => some (some h)

/-- `ObjectRepo::set_instance` (repository.rs:345-349). -/
def setInstance (r : Repo) (id : Nat) : Repo :=
  let managed :=
    match alLookup r.managed id with
    | some _ => r.managed
    | none => alInsert r.managed id []
  { r with managed := managed, instanceId := id }

/-- Spec §3 invariant 1, restricted to the handles reachable from the managed
map: every chunk in any managed handle's chunk list is a key of the chunk
map. -/
def chunkMapInv (r : Repo) : Bool :=
  r.managed.all fun p => p.2.all fun q => q.2.chunks.all fun c =>
    (alLookup r.state.chunks c).isSome

/-- The managed map has an entry for the current instance, so the unwraps in
`managed_map`/`managed_map_mut` (repository.rs:240-247) cannot fire. -/
def instanceKeyInv (r : Repo) : Bool :=
  (alLookup r.managed r.instanceId).isSome

/-- `ObjectRepo::clone_header` (repository.rs:399-406). -/
def cloneHeader (r : Repo) : Header :=
  ⟨r.state.chunks, r.state.packs, r.managed, r.handleTable⟩

/-- `ObjectRepo::serialize_header` (repository.rs:411-439): the swap trick that
avoids cloning is state-neutral (the fields are put back), so serialization is
just the serialized current header. -/
def serializeHeader (r : Repo) : Bytes :=
  Bytes.headerBytes (cloneHeader r)

/-- `ObjectRepo::restore_header` (repository.rs:442-447): installs the header
fields into live state; the metadata (including `header_id`) is untouched. -/
def restoreHeader (r : Repo) (h : Header) : Repo :=
  { r with
      state := { r.state with chunks := h.chunks, packs := h.packs },
      managed := h.managed,
      handleTable := h.handleTable }

/-- `ObjectRepo::write_serialized_header` (repository.rs:373-396): encode the
payload, write it to a fresh header block (`freshId` stands for the
`Uuid::new_v4()` call), update `metadata.header_id`, then write the metadata
block.  Returns the (possibly partially) mutated repository together with the
optional error, mirroring `&mut self`. -/
def writeSerializedHeader (r : Repo) (freshId : Nat) (payload : Bytes) :
    Repo × Option Err :=
  let encodedHeader := encodeData payload
  match storeWrite r.state.store r.state.faults freshId encodedHeader with
  | (store1, faults1, some e) =>
      ({ r with state := { r.state with store := store1, faults := faults1 } }, some e)
  | (store1, faults1, none) =>
      let md := { r.state.metadata with headerId := freshId }
      match storeWrite store1 faults1 metadataBlockId (Bytes.metaBytes md) with
      | (store2, faults2, res) =>
          ({ r with
              state := { r.state with store := store2, faults := faults2, metadata := md } },
            res)

/-- The savepoint-object removal loop of `commit` (repository.rs:477-480). -/
def removeSavepointObjects : Repo → List ObjectHandle → Option Repo
  | r, [] => some r
  | r, h :: rest =>
      match removeUnmanaged r h with
      | none => none
      | some (r1, _) => removeSavepointObjects r1 rest

/-- `ObjectRepo::commit` (repository.rs:471-499): back up the header, remove
the savepoint objects, serialize and write the header; on a write error restore
the backup header and return the error, otherwise clear the savepoint table and
return success. -/
def commit (r : Repo) (freshId : Nat) : Option (Repo × Option Err) :=
  let backupHeader := cloneHeader r
  match removeSavepointObjects r (r.savepoints.map (·.2)) with
  | none => none
  | some r1 =>
      match writeSerializedHeader r1 freshId (serializeHeader r1) with
      | (r2, some e) => some (restoreHeader r2 backupHeader, some e)
      | (r2, none) => some ({ r2 with savepoints := [] }, none)

/-- `ObjectRepo::rollback` (repository.rs:517-536): read the block named by
`metadata.header_id`, decode, deserialize, install. -/
def rollback (r : Repo) : Repo × Option Err :=
  match alLookup r.state.store r.state.metadata.headerId with
  | none => (r, some Err.corrupt)
  | some encodedHeader =>
      match decodeData encodedHeader with
      | Except.error e => (r, some e)
      | Except.ok serializedHeader =>
          match deserializeHeader serializedHeader with
          | Except.error e => (r, some e)
          | Except.ok header => (restoreHeader r header, none)

/-- The previously committed header as `rollback`/`clean` read it back
(repository.rs:518-529, 632-643): the stored block must be the encoder output
over a serialized header. -/
def readStoredHeader (r : Repo) : Option Header :=
  match alLookup r.state.store r.state.metadata.headerId with
  | some (Bytes.encoded (Bytes.headerBytes h)) => some h
  | _ => none

/-- `ObjectRepo::list_data_blocks` (repository.rs:352-370). -/
def listDataBlocks (r : Repo) : List Nat :=
  (r.state.store.map (·.1)).filter fun id =>
    !(decide (id = metadataBlockId)) && !(decide (id = versionBlockId))
      && !(decide (id = r.state.metadata.headerId))

/-- Turn a list of block IDs into the set `referenced_blocks`. -/
def finsetOfList (l : List Nat) : Finset Nat := l.foldr insert ∅

/-- The unreferenced-block removal loop of `clean`, `Packing::None` branch
(repository.rs:664-673). -/
def removeUnreferenced (referenced : Finset Nat) :
    List (Nat × Bytes) → List Bool → List Nat →
      List (Nat × Bytes) × List Bool × Option Err
  | store, faults, [] => (store, faults, none)
  | store, faults, id :: rest =>
      if id ∈ referenced then removeUnreferenced referenced store faults rest
      else
        match storeRemove store faults id with
        | (store1, faults1, some e) => (store1, faults1, some e)
        | (store1, faults1, none) => removeUnreferenced referenced store1 faults1 rest

/-- One `block_id → [pack indices]` entry of the `packs_to_blocks` build of
`clean` (repository.rs:684-691). -/
def addPackEntries (blockId : Nat) :
    List (Nat × Finset Nat) → List PackIndex → List (Nat × Finset Nat)
  | acc, [] => acc
  | acc, pi :: rest =>
      addPackEntries blockId
        (alInsert acc pi.id (insert blockId ((alLookup acc pi.id).getD ∅))) rest

/-- The `packs_to_blocks` map of `clean` (repository.rs:683-691): pack ID to
the set of blocks it contains. -/
def packsToBlocksMap : List (Nat × List PackIndex) → List (Nat × Finset Nat) →
    List (Nat × Finset Nat)
  | [], acc => acc
  | (blockId, indexList) :: rest, acc =>
      packsToBlocksMap rest (addPackEntries blockId acc indexList)

/-- The dirty-pack scan of `clean` (repository.rs:700-718): returns the packs
to remove and the still-referenced blocks to repack (the source iterates a
`HashSet`; the model fixes the ascending order). -/
def scanPacks (packsToBlocks : List (Nat × Finset Nat)) (referenced : Finset Nat) :
    List Nat → List Nat × List Nat
  | [] => ([], [])
  | packId :: rest =>
      let (toRemove, toRepack) := scanPacks packsToBlocks referenced rest
      match alLookup packsToBlocks packId with
      | some contained =>
          if ¬ contained ⊆ referenced then
            (packId :: toRemove, (contained ∩ referenced).sort (· ≤ ·) ++ toRepack)
          else (toRemove, toRepack)
      | none => (packId :: toRemove, toRepack)

/-- Modelled from the spec: the chunk-store reader/writer used by the repack
loop of `clean` (§4.4); the `chunk_store` module is not among the provided
sources, so its two block operations are supplied abstractly. -/
structure StoreOps where
  readBlock : RepoState → Nat → RepoState × Except Err (List Nat)
  writeBlock : RepoState → Nat → List Nat → RepoState × Option Err

/-- The repack loop of `clean` (repository.rs:722-729). -/
def repackBlocks (ops : StoreOps) : RepoState → List Nat → RepoState × Option Err
  | st, [] => (st, none)
  | st, blockId :: rest =>
      match ops.readBlock st blockId with
      | (st1, Except.error e) => (st1, some e)
      | (st1, Except.ok data) =>
          match ops.writeBlock st1 blockId data with
          | (st2, some e) => (st2, some e)
          | (st2, none) => repackBlocks ops st2 rest

/-- The old-pack removal loop of `clean` (repository.rs:733-740). -/
def removePacks :
    List (Nat × Bytes) → List Bool → List Nat →
      List (Nat × Bytes) × List Bool × Option Err
  | store, faults, [] => (store, faults, none)
  | store, faults, id :: rest =>
      match storeRemove store faults id with
      | (s1, f1, some e) => (s1, f1, some e)
      | (s1, f1, none) => removePacks s1 f1 rest

/-- `ObjectRepo::clean` (repository.rs:631-778).  `freshId` stands for the
fresh header-block UUID of the final `write_serialized_header` call.  Note that
the final step of the `Packing::Fixed` branch encodes the serialized header and
then hands the already-encoded bytes to `write_serialized_header`, which
encodes again (repository.rs:771-772). -/
def clean (r : Repo) (ops : StoreOps) (freshId : Nat) : Repo × Option Err :=
  match alLookup r.state.store r.state.metadata.headerId with
  | none => (r, some Err.corrupt)
  | some encodedHeader =>
  match decodeData encodedHeader with
  | Except.error e => (r, some e)
  | Except.ok serializedHeader =>
  match deserializeHeader serializedHeader with
  | Except.error e => (r, some e)
  | Except.ok previousHeader =>
  let referencedBlocks : Finset Nat :=
    finsetOfList (r.state.chunks.map (fun p => p.2.blockId)
      ++ previousHeader.chunks.map (fun p => p.2.blockId))
  match r.state.metadata.packing with
  | Packing.nopack =>
      match removeUnreferenced referencedBlocks r.state.store r.state.faults
          (listDataBlocks r) with
      | (store1, faults1, res) =>
          ({ r with state := { r.state with store := store1, faults := faults1 } }, res)
  | Packing.fixed _ =>
      let packsToBlocks := packsToBlocksMap (r.state.packs ++ previousHeader.packs) []
      let (packsToRemove, blocksToRepack) :=
        scanPacks packsToBlocks referencedBlocks (listDataBlocks r)
      match repackBlocks ops r.state blocksToRepack with
      | (st1, some e) => ({ r with state := st1 }, some e)
      | (st1, none) =>
      match removePacks st1.store st1.faults packsToRemove with
      | (store2, faults2, some e) =>
          ({ r with state := { st1 with store := store2, faults := faults2 } }, some e)
      | (store2, faults2, none) =>
          let st2 := { st1 with
                        store := store2
                        faults := faults2
                        packs := st1.packs.filter fun p => decide (p.1 ∈ referencedBlocks) }
          let serializedHeader2 :=
            Bytes.headerBytes { previousHeader with packs := st2.packs }
          writeSerializedHeader { r with state := st2 } freshId
            (encodeData serializedHeader2)

/-- The result of `StoreReader::read_chunk` as `verify` sees it. -/
inductive ChunkReadResult where
  | okData (data : List Nat)
  | readErr (e : Err)
deriving DecidableEq

/-- `IntegrityReport` (spec §4.13): corrupt chunk hashes and corrupt managed
objects as `(instance, object)` pairs. -/
structure IntegrityReport where
  corruptChunks : Finset Nat
  corruptManaged : Finset (Nat × Nat)
deriving DecidableEq

/-- Whether `verify` records a chunk as corrupt (repository.rs:823-832): a
read succeeding with the wrong length or hash, or failing with
`InvalidData`. -/
def chunkCorrupt (readChunk : Chunk → ChunkReadResult) (hashFn : List Nat → Nat)
    (c : Chunk) : Bool :=
  match readChunk c with
  | ChunkReadResult.okData data =>
      decide (data.length ≠ c.size) || decide (hashFn data ≠ c.hash)
  | ChunkReadResult.readErr e => decide (e = Err.invalidData)

/-- The chunk-scanning loop of `verify` (repository.rs:817-835): `readChunk`
stands for `StoreReader::read_chunk` and `hashFn` for `chunk_hash` (the
`chunk_store`/`object` modules are not among the provided sources). -/
def scanChunks (readChunk : Chunk → ChunkReadResult) (hashFn : List Nat → Nat) :
    List Chunk → Except Err (Finset Nat)
  | [] => Except.ok ∅
  | c :: rest =>
      match readChunk c with
      | ChunkReadResult.okData data =>
          if data.length ≠ c.size ∨ hashFn data ≠ c.hash then
            (scanChunks readChunk hashFn rest).map (insert c.hash)
          else scanChunks readChunk hashFn rest
      | ChunkReadResult.readErr e =>
          if e = Err.invalidData then
            (scanChunks readChunk hashFn rest).map (insert c.hash)
          else Except.error e

/-- The inner corrupt-managed loop of `verify` (repository.rs:843-855): an
object is corrupt when any chunk in its list is corrupt. -/
def corruptObjects (instId : Nat) (cc : Finset Nat) :
    List (Nat × ObjectHandle) → Finset (Nat × Nat)
  | [] => ∅
  | (oid, h) :: rest =>
      if h.chunks.any (fun c => decide (c.hash ∈ cc)) then
        insert (instId, oid) (corruptObjects instId cc rest)
      else corruptObjects instId cc rest

/-- The outer corrupt-managed loop of `verify` (repository.rs:842-856). -/
def corruptManagedOf (cc : Finset Nat) :
    List (Nat × List (Nat × ObjectHandle)) → Finset (Nat × Nat)
  | [] => ∅
  | (instId, mm) :: rest => corruptObjects instId cc mm ∪ corruptManagedOf cc rest

/-- `ObjectRepo::verify` (repository.rs:811-859). -/
def verify (r : Repo) (readChunk : Chunk → ChunkReadResult)
    (hashFn : List Nat → Nat) : Except Err IntegrityReport :=
  match scanChunks readChunk hashFn (r.state.chunks.map (·.1)) with
  | Except.error e => Except.error e
  | Except.ok cc =>
      if cc = ∅ then Except.ok ⟨cc, ∅⟩
      else Except.ok ⟨cc, corruptManagedOf cc r.managed⟩

/-- `BlockKey` (store/data_store.rs, via memory.rs): the partitioned block
keyspace. -/
inductive BlockKey where
  | data (id : Nat)
  | lock (id : Nat)
  | header (id : Nat)
  | sup
  | version
deriving DecidableEq

/-- `BlockType` (store/data_store.rs, via memory.rs). -/
inductive BlockType where
  | data
  | lock
  | header
deriving DecidableEq

/-- `BlockMap` (memory.rs:8-15). -/
structure BlockMap where
  data : List (Nat × List Nat)
  locks : List (Nat × List Nat)
  headers : List (Nat × List Nat)
  superblock : Option (List Nat)
  version : Option (List Nat)
deriving DecidableEq

/-- `MemoryStore::write_block` (memory.rs:60-80). -/
def memWriteBlock (bm : BlockMap) (key : BlockKey) (d : List Nat) :
    Except Err BlockMap :=
  Except.ok <|
    match key with
    | BlockKey.data id => { bm with data := alInsert bm.data id d }
    | BlockKey.lock id => { bm with locks := alInsert bm.locks id d }
    | BlockKey.header id => { bm with headers := alInsert bm.headers id d }
    | BlockKey.sup => { bm with superblock := some d }
    | BlockKey.version => { bm with version := some d }

/-- `MemoryStore::read_block` (memory.rs:82-98), returning the read bytes
instead of appending them to a caller buffer and returning the length. -/
def memReadBlock (bm : BlockMap) (key : BlockKey) :
    Except Err (Option (List Nat)) :=
  Except.ok <|
    match key with
    | BlockKey.data id => alLookup bm.data id
    | BlockKey.lock id => alLookup bm.locks id
    | BlockKey.header id => alLookup bm.headers id
    | BlockKey.sup => bm.superblock
    | BlockKey.version => bm.version

/-- `MemoryStore::remove_block` (memory.rs:100-120). -/
def memRemoveBlock (bm : BlockMap) (key : BlockKey) : Except Err BlockMap :=
  Except.ok <|
    match key with
    | BlockKey.data id => { bm with data := alRemove bm.data id }
    | BlockKey.lock id => { bm with locks := alRemove bm.locks id }
    | BlockKey.header id => { bm with headers := alRemove bm.headers id }
    | BlockKey.sup => { bm with superblock := none }
    | BlockKey.version => { bm with version := none }

/-- `MemoryStore::list_blocks` (memory.rs:122-129). -/
def memListBlocks (bm : BlockMap) (kind : BlockType) : Except Err (List Nat) :=
  Except.ok <|
    match kind with
    | BlockType.data => bm.data.map (·.1)
    | BlockType.lock => bm.locks.map (·.1)
    | BlockType.header => bm.headers.map (·.1)

/-- `DirectoryStore::read_block` (directory/store.rs:110-121): `files` maps
block IDs to block-file contents; when the block file does not exist the
source aborts the process (the `else` branch is a panic), modelled as `none` —
it does not return a `None`-like value or an `Err`. -/
def dirReadBlock (files : List (Nat × List Nat)) (id : Nat) :
    Option (Except Err (List Nat)) :=
  match alLookup files id with
  | some bytes => some (Except.ok bytes)
  | none => none

/-- The `SuperBlock` payload fields (block.rs:108-131). -/
structure SuperBlockData where
  id : Nat
  blockSize : Nat
  chunkerBits : Nat
  compression : Nat
  encryption : Nat
  headerIndex : Nat
  headerBlocks : Nat
  headerSize : Nat
deriving DecidableEq

/-- Contents of one 4096-byte superblock slot: either a well-formed
length-prefixed serialized superblock, or bytes on which deserialization
fails. -/
inductive SlotBytes where
  | valid (sb : SuperBlockData)
  | corrupt (n : Nat)
deriving DecidableEq

/-- The reserved file region holding the two superblock copies: primary at
offset 0, backup at offset 4096 (block.rs:30-39). -/
structure SBFile where
  primary : SlotBytes
  backup : SlotBytes
deriving DecidableEq

/-- `SuperBlock::read_at` (block.rs:139-153): in the pure-content model the
only failure is a slot whose bytes do not deserialize. -/
def sbReadAt : SlotBytes → Except Err SuperBlockData
  | SlotBytes.valid sb => Except.ok sb
  | SlotBytes.corrupt _ => Except.error Err.invalidData

/-- `SuperBlock::write_at` (block.rs:156-174): serialize the superblock with
its length prefix and padding into the slot. -/
def sbWriteAt (sb : SuperBlockData) : SlotBytes := SlotBytes.valid sb

/-- `SuperBlock::read` (block.rs:177-208): read both copies; if exactly one is
unreadable, repair it from the other and return the valid one; prefer the
primary when both read. -/
def sbRead (f : SBFile) : Except Err (SuperBlockData × SBFile) :=
  match sbReadAt f.primary, sbReadAt f.backup with
  | Except.ok sb, Except.ok _ => Except.ok (sb, f)
  | Except.ok sb, Except.error _ => Except.ok (sb, { f with backup := sbWriteAt sb })
  | Except.error _, Except.ok sb => Except.ok (sb, { f with primary := sbWriteAt sb })
  | Except.error _, Except.error _ => Except.error Err.invalidData

/-- `SuperBlock::write` (block.rs:211-216): write the primary and the backup
copy. -/
def sbWrite (sb : SuperBlockData) : SBFile := ⟨sbWriteAt sb, sbWriteAt sb⟩

/-- Whether a `Result` is `Ok`. -/
def isOkE {ε α : Type} : Except ε α → Bool
  | Except.ok _ => true
  | Except.error _ => false

/-- An empty committed header (one instance, no objects) used by the concrete
repositories below. -/
def exHdr : Header := ⟨[], [], [(0, [])], ⟨0, []⟩⟩

/-- Metadata of the concrete unpacked repository: repo ID 0, committed header
in block 5, packing disabled. -/
def exMeta1 : Metadata := ⟨0, 5, Packing.nopack⟩

/-- A committed repository whose store will accept the next block write and
fail the one after it (so a `commit` writes the header block and then fails
the metadata write). -/
def exR1 : Repo :=
  { state :=
      { chunks := []
        packs := []
        metadata := exMeta1
        store := [(metadataBlockId, Bytes.metaBytes exMeta1),
                  (5, Bytes.encoded (Bytes.headerBytes exHdr))]
        faults := [false, true] }
    instanceId := 0
    managed := [(0, [])]
    handleTable := ⟨0, []⟩
    savepoints := [] }

/-- The repository state after the failed `commit exR1 99`: the header backup
is restored but `metadata.header_id` keeps the fresh block ID 99, and the
orphaned header block remains in the store. -/
def exR1' : Repo :=
  { state :=
      { chunks := []
        packs := []
        metadata := ⟨0, 99, Packing.nopack⟩
        store := [(metadataBlockId, Bytes.metaBytes exMeta1),
                  (5, Bytes.encoded (Bytes.headerBytes exHdr)),
                  (99, Bytes.encoded (Bytes.headerBytes exHdr))]
        faults := [] }
    instanceId := 0
    managed := [(0, [])]
    handleTable := ⟨0, []⟩
    savepoints := [] }

/-- Metadata of the concrete packed repository: packing enabled. -/
def exMeta2 : Metadata := ⟨0, 5, Packing.fixed 65536⟩

/-- A committed repository with packing enabled and a reliable store. -/
def exR2 : Repo :=
  { state :=
      { chunks := []
        packs := []
        metadata := exMeta2
        store := [(metadataBlockId, Bytes.metaBytes exMeta2),
                  (5, Bytes.encoded (Bytes.headerBytes exHdr))]
        faults := [] }
    instanceId := 0
    managed := [(0, [])]
    handleTable := ⟨0, []⟩
    savepoints := [] }

/-- Chunk-store operations that are never consulted (the repack list is empty
in the concrete runs below). -/
def trivialOps : StoreOps :=
  ⟨fun st _ => (st, Except.ok []), fun st _ _ => (st, none)⟩

/-- The chunk shared by the two managed objects of the `copy_managed`
scenario. -/
def exC3chunk : Chunk := ⟨7, 4⟩

/-- The handle of managed object 10 in `exR3`. -/
def exH3 : ObjectHandle := ⟨0, 0, 1, 4, [exC3chunk]⟩

/-- A repository with one managed object (ID 10) holding one chunk. -/
def exR3 : Repo :=
  { state :=
      { chunks := [(exC3chunk, ⟨3, {1}⟩)]
        packs := []
        metadata := exMeta1
        store := []
        faults := [] }
    instanceId := 0
    managed := [(0, [(10, exH3)])]
    handleTable := ⟨2, []⟩
    savepoints := [] }

/-- The chunk of the copy-on-write scenario. -/
def exC4chunk : Chunk := ⟨7, 4⟩

/-- The unmanaged handle of the copy-on-write scenario. -/
def exH4 : ObjectHandle := ⟨0, 0, 1, 4, [exC4chunk]⟩

/-- A repository containing the unmanaged object behind `exH4`. -/
def exR4 : Repo :=
  { state :=
      { chunks := [(exC4chunk, ⟨3, {1}⟩)]
        packs := []
        metadata := exMeta1
        store := []
        faults := [] }
    instanceId := 0
    managed := [(0, [])]
    handleTable := ⟨2, []⟩
    savepoints := [] }

/-- `exR4` after `unmanaged_object_mut`: handle ID 1 replaced by the fresh
ID 2 everywhere. -/
def exR4' : Repo :=
  { state :=
      { chunks := [(exC4chunk, ⟨3, {2}⟩)]
        packs := []
        metadata := exMeta1
        store := []
        faults := [] }
    instanceId := 0
    managed := [(0, [])]
    handleTable := ⟨3, [1]⟩
    savepoints := [] }

/-- `exH4` after the copy-on-write swap. -/
def exH4' : ObjectHandle := ⟨0, 0, 2, 4, [exC4chunk]⟩

/-- A repository with one chunk, for exercising `verify` against a failing
read. -/
def exR6 : Repo :=
  { state :=
      { chunks := [(⟨7, 4⟩, ⟨3, {1}⟩)]
        packs := []
        metadata := exMeta1
        store := []
        faults := [] }
    instanceId := 0
    managed := [(0, [])]
    handleTable := ⟨2, []⟩
    savepoints := [] }

/-- A chunk reader whose every read fails with an I/O error. -/
def exReadChunk : Chunk → ChunkReadResult := fun _ => ChunkReadResult.readErr Err.io

/-- A trivial stand-in for `chunk_hash`. -/
def exHashFn : List Nat → Nat := fun _ => 0

/-- A repository whose current instance has no managed objects. -/
def exR8 : Repo :=
  { state :=
      { chunks := []
        packs := []
        metadata := exMeta1
        store := []
        faults := [] }
    instanceId := 0
    managed := [(0, [])]
    handleTable := ⟨0, []⟩
    savepoints := [] }

/-- A committed repository about to switch to a fresh instance: the committed
header `exHdr` only knows instance 0. -/
def exR9 : Repo :=
  { state :=
      { chunks := []
        packs := []
        metadata := exMeta1
        store := [(metadataBlockId, Bytes.metaBytes exMeta1),
                  (5, Bytes.encoded (Bytes.headerBytes exHdr))]
        faults := [] }
    instanceId := 0
    managed := [(0, [])]
    handleTable := ⟨0, []⟩
    savepoints := [] }

/-- An empty memory-store block map. -/
def exBM5 : BlockMap := ⟨[], [], [], none, none⟩

theorem alLookup_alInsert_self {κ ν : Type} [DecidableEq κ]
    (l : List (κ × ν)) (k : κ) (v : ν) : alLookup (alInsert l k v) k = some v := by
  induction l with
  | nil => simp [alInsert, alLookup]
  | cons p rest ih =>
      obtain ⟨k', v'⟩ := p
      by_cases h : k' = k
      · simp [alInsert, h, alLookup]
      · simp [alInsert, h, alLookup, ih]

theorem alLookup_alInsert_ne {κ ν : Type} [DecidableEq κ]
    (l : List (κ × ν)) (k k' : κ) (v : ν) (h : k' ≠ k) :
    alLookup (alInsert l k v) k' = alLookup l k' := by
  induction l with
  | nil => simp [alInsert, alLookup, Ne.symm h]
  | cons p rest ih =>
      obtain ⟨k0, v0⟩ := p
      by_cases h0 : k0 = k
      · subst h0
        simp [alInsert, alLookup, Ne.symm h]
      · simp only [alInsert, if_neg h0]
        by_cases h1 : k0 = k'
        · simp [alLookup, h1]
        · simp [alLookup, h1, ih]

theorem except_map_eq_error {ε α β : Type} (f : α → β) (x : Except ε α) (e : ε) :
    x.map f = Except.error e ↔ x = Except.error e := by
  cases x <;> simp [Except.map]

theorem except_map_eq_ok {ε α β : Type} (f : α → β) (x : Except ε α) (b : β) :
    x.map f = Except.ok b ↔ ∃ a, x = Except.ok a ∧ f a = b := by
  cases x <;> simp [Except.map]

theorem IdTable.next_not_contains (t : IdTable) : t.contains t.next.1 = false := by
  obtain ⟨n, unused⟩ := t
  cases unused with
  | nil => simp [IdTable.next, IdTable.contains]
  | cons i rest => simp [IdTable.next, IdTable.contains]

theorem IdTable.next_ne_of_contains (t : IdTable) (id : Nat)
    (h : t.contains id = true) : t.next.1 ≠ id := by
  obtain ⟨n, unused⟩ := t
  simp only [IdTable.contains, Bool.and_eq_true, decide_eq_true_eq,
    Bool.not_eq_true', decide_eq_false_iff_not] at h
  cases unused with
  | nil =>
      simp only [IdTable.next]
      omega
  | cons i rest =>
      simp only [IdTable.next]
      intro hi
      exact h.2 (hi ▸ List.mem_cons_self i rest)

theorem IdTable.recycle_not_contains (t : IdTable) (id : Nat) :
    (t.recycle id).contains id = false := by
  simp [IdTable.recycle, IdTable.contains]

theorem removeUnmanaged_fields (r : Repo) (h : ObjectHandle) (r' : Repo) (b : Bool)
    (hr : removeUnmanaged r h = some (r', b)) :
    r'.state.metadata = r.state.metadata ∧ r'.state.store = r.state.store ∧
      r'.state.faults = r.state.faults ∧ r'.state.packs = r.state.packs ∧
      r'.managed = r.managed ∧ r'.savepoints = r.savepoints ∧
      r'.instanceId = r.instanceId := by
  by_cases hc : containsUnmanaged r h = true
  · simp only [removeUnmanaged, hc, if_true] at hr
    cases hcm : removeChunkRefs h.handleId r.state.chunks h.chunks with
    | none => rw [hcm] at hr; cases hr
    | some cm =>
        rw [hcm] at hr
        simp only [Option.some.injEq, Prod.mk.injEq] at hr
        obtain ⟨hr1, -⟩ := hr
        subst hr1
        exact ⟨rfl, rfl, rfl, rfl, rfl, rfl, rfl⟩
  · have hc' : containsUnmanaged r h = false := by
      simpa using hc
    simp only [removeUnmanaged, hc', Bool.false_eq_true, if_false,
      Option.some.injEq, Prod.mk.injEq] at hr
    obtain ⟨hr1, -⟩ := hr
    subst hr1
    exact ⟨rfl, rfl, rfl, rfl, rfl, rfl, rfl⟩

theorem removeSavepointObjects_fields :
    ∀ (hs : List ObjectHandle) (r r' : Repo),
      removeSavepointObjects r hs = some r' →
      r'.state.metadata = r.state.metadata ∧ r'.state.store = r.state.store ∧
        r'.state.faults = r.state.faults ∧ r'.state.packs = r.state.packs ∧
        r'.managed = r.managed ∧ r'.savepoints = r.savepoints ∧
        r'.instanceId = r.instanceId
  | [], r, r', hr => by
      simp only [removeSavepointObjects, Option.some.injEq] at hr
      subst hr
      exact ⟨rfl, rfl, rfl, rfl, rfl, rfl, rfl⟩
  | h :: rest, r, r', hr => by
      simp only [removeSavepointObjects] at hr
      cases hru : removeUnmanaged r h with
      | none => rw [hru] at hr; cases hr
      | some p =>
          obtain ⟨r1, b⟩ := p
          rw [hru] at hr
          have h1 := removeUnmanaged_fields r h r1 b hru
          have h2 := removeSavepointObjects_fields rest r1 r' hr
          exact ⟨h2.1.trans h1.1, h2.2.1.trans h1.2.1, h2.2.2.1.trans h1.2.2.1,
            h2.2.2.2.1.trans h1.2.2.2.1, h2.2.2.2.2.1.trans h1.2.2.2.2.1,
            h2.2.2.2.2.2.1.trans h1.2.2.2.2.2.1, h2.2.2.2.2.2.2.trans h1.2.2.2.2.2.2⟩

theorem writeSerializedHeader_fields (r : Repo) (freshId : Nat) (p : Bytes)
    (r2 : Repo) (res : Option Err)
    (hw : writeSerializedHeader r freshId p = (r2, res)) :
    r2.state.chunks = r.state.chunks ∧ r2.state.packs = r.state.packs ∧
      r2.managed = r.managed ∧ r2.handleTable = r.handleTable ∧
      r2.savepoints = r.savepoints ∧ r2.instanceId = r.instanceId ∧
      r2.state.metadata.id = r.state.metadata.id ∧
      r2.state.metadata.packing = r.state.metadata.packing ∧
      (r2.state.metadata.headerId = r.state.metadata.headerId ∨
        r2.state.metadata.headerId = freshId) := by
  cases hf : r.state.faults with
  | nil =>
      simp only [writeSerializedHeader, storeWrite, hf] at hw
      obtain ⟨hr1, -⟩ := Prod.mk.inj hw
      subst hr1
      exact ⟨rfl, rfl, rfl, rfl, rfl, rfl, rfl, rfl, Or.inr rfl⟩
  | cons b1 rest =>
      cases b1 with
      | true =>
          simp only [writeSerializedHeader, storeWrite, hf] at hw
          obtain ⟨hr1, -⟩ := Prod.mk.inj hw
          subst hr1
          exact ⟨rfl, rfl, rfl, rfl, rfl, rfl, rfl, rfl, Or.inl rfl⟩
      | false =>
          cases rest with
          | nil =>
              simp only [writeSerializedHeader, storeWrite, hf] at hw
              obtain ⟨hr1, -⟩ := Prod.mk.inj hw
              subst hr1
              exact ⟨rfl, rfl, rfl, rfl, rfl, rfl, rfl, rfl, Or.inr rfl⟩
          | cons b2 rest2 =>
              cases b2 with
              | true =>
                  simp only [writeSerializedHeader, storeWrite, hf] at hw
                  obtain ⟨hr1, -⟩ := Prod.mk.inj hw
                  subst hr1
                  exact ⟨rfl, rfl, rfl, rfl, rfl, rfl, rfl, rfl, Or.inr rfl⟩
              | false =>
                  simp only [writeSerializedHeader, storeWrite, hf] at hw
                  obtain ⟨hr1, -⟩ := Prod.mk.inj hw
                  subst hr1
                  exact ⟨rfl, rfl, rfl, rfl, rfl, rfl, rfl, rfl, Or.inr rfl⟩

theorem writeSerializedHeader_nofault (r : Repo) (freshId : Nat) (p : Bytes)
    (hf : ∀ b ∈ r.state.faults, b = false) :
    (writeSerializedHeader r freshId p).2 = none := by
  cases hfs : r.state.faults with
  | nil => simp [writeSerializedHeader, storeWrite, hfs]
  | cons b1 rest =>
      have hb1 : b1 = false := hf b1 (hfs ▸ List.mem_cons_self b1 rest)
      subst hb1
      cases rest with
      | nil => simp [writeSerializedHeader, storeWrite, hfs]
      | cons b2 rest2 =>
          have hb2 : b2 = false := hf b2 (hfs ▸ List.mem_cons_of_mem _ (List.mem_cons_self b2 rest2))
          subst hb2
          simp [writeSerializedHeader, storeWrite, hfs]

/-- C1: `commit` restores the header state on error, but the claim that the
metadata — including `header_id` — always equals the pre-call state is false:
when the header block write succeeds and the metadata write fails,
`restore_header` puts back only the four `Header` fields and
`metadata.header_id` keeps the freshly generated block ID.  Amended: on error
the chunk map, pack map, managed map, handle-ID table and savepoint table
equal the pre-call state and the metadata is unchanged except that `header_id`
is either unchanged or the fresh header block ID; and whenever no store write
fails (so both the header block write and the metadata write succeed),
`commit` returns `Ok`. -/
theorem commit_error_restores_header_state :
    (∀ (r : Repo) (freshId : Nat) (r' : Repo) (e : Err),
        commit r freshId = some (r', some e) →
        r'.state.chunks = r.state.chunks ∧ r'.state.packs = r.state.packs ∧
          r'.managed = r.managed ∧ r'.handleTable = r.handleTable ∧
          r'.savepoints = r.savepoints ∧
          r'.state.metadata.id = r.state.metadata.id ∧
          r'.state.metadata.packing = r.state.metadata.packing ∧
          (r'.state.metadata.headerId = r.state.metadata.headerId ∨
            r'.state.metadata.headerId = freshId)) ∧
    (∀ (r : Repo) (freshId : Nat) (r' : Repo) (res : Option Err),
        commit r freshId = some (r', res) →
        (∀ b ∈ r.state.faults, b = false) → res = none) := by
  constructor
  · intro r freshId r' e hc
    simp only [commit] at hc
    split at hc
    · cases hc
    · rename_i r1 hrs
      split at hc
      · rename_i r2 e2 hw
        simp only [Option.some.injEq, Prod.mk.injEq] at hc
        obtain ⟨hr', -⟩ := hc
        subst hr'
        obtain ⟨f1, f2, f3, f4, f5, f6, f7⟩ :=
          removeSavepointObjects_fields _ r r1 hrs
        obtain ⟨w1, w2, w3, w4, w5, w6, w7, w8, w9⟩ :=
          writeSerializedHeader_fields r1 freshId _ r2 (some e2) hw
        refine ⟨rfl, rfl, rfl, rfl, w5.trans f6, ?_, ?_, ?_⟩
        · rw [show (restoreHeader r2 (cloneHeader r)).state.metadata
              = r2.state.metadata from rfl, w7, f1]
        · rw [show (restoreHeader r2 (cloneHeader r)).state.metadata
              = r2.state.metadata from rfl, w8, f1]
        · rw [show (restoreHeader r2 (cloneHeader r)).state.metadata
              = r2.state.metadata from rfl]
          rcases w9 with h9 | h9
          · exact Or.inl (h9.trans (by rw [f1]))
          · exact Or.inr h9
      · simp at hc
  · intro r freshId r' res hc hf
    simp only [commit] at hc
    split at hc
    · cases hc
    · rename_i r1 hrs
      have hfs := removeSavepointObjects_fields _ r r1 hrs
      have hf1 : ∀ b ∈ r1.state.faults, b = false := by
        rw [hfs.2.2.1]; exact hf
      have hnf := writeSerializedHeader_nofault r1 freshId (serializeHeader r1) hf1
      split at hc
      · rename_i r2 e2 hw
        rw [hw] at hnf
        simp at hnf
      · rename_i r2 hw
        simp only [Option.some.injEq, Prod.mk.injEq] at hc
        exact hc.2.symm

/-- C1 counterexample: on `exR1` the header block write succeeds and the
metadata write fails, `commit` returns an error, and the in-memory
`metadata.header_id` is left at the fresh block ID 99 instead of the
pre-call 5. -/
theorem commit_error_changes_headerId :
    commit exR1 99 = some (exR1', some Err.store) ∧
      exR1.state.metadata.headerId = 5 ∧ exR1'.state.metadata.headerId = 99 :=
  ⟨by decide, rfl, rfl⟩

/-- Witness for the amended C1 theorem at the concrete failed commit. -/
theorem commit_error_restores_header_state_witness :
    exR1'.state.chunks = exR1.state.chunks ∧ exR1'.state.packs = exR1.state.packs ∧
      exR1'.managed = exR1.managed ∧ exR1'.handleTable = exR1.handleTable ∧
      exR1'.savepoints = exR1.savepoints ∧
      exR1'.state.metadata.id = exR1.state.metadata.id ∧
      exR1'.state.metadata.packing = exR1.state.metadata.packing ∧
      (exR1'.state.metadata.headerId = exR1.state.metadata.headerId ∨
        exR1'.state.metadata.headerId = 99) :=
  commit_error_restores_header_state.1 exR1 99 exR1' Err.store (by decide)

/-- C2 (code bug): on the packed committed repository `exR2`, `clean` succeeds
but its final step hands already-encoded bytes to `write_serialized_header`,
which encodes again — the stored header block is
`encode(encode(serialize h))` — so the following `rollback` decodes once,
cannot deserialize the still-encoded bytes, and returns `Corrupt` instead of
restoring the last committed state. -/
theorem clean_then_rollback_corrupt :
    (clean exR2 trivialOps 7).2 = none ∧
      alLookup (clean exR2 trivialOps 7).1.state.store 7
        = some (Bytes.encoded (Bytes.encoded (Bytes.headerBytes exHdr))) ∧
      (rollback (clean exR2 trivialOps 7).1).2 = some Err.corrupt :=
  ⟨by decide, by decide, by decide⟩

/-- C3 (code bug): `copy_managed` duplicates the source handle without minting
a fresh handle ID or registering chunk references, so `copy_managed(10, 11)`
followed by `remove_managed 10` empties the shared chunk's reference set and
deletes it from the chunk map while the handle at 11 still lists it — spec
invariant 1 is broken. -/
theorem copy_managed_breaks_chunk_reference_invariant :
    chunkMapInv exR3 = true ∧
      ((copyManaged exR3 10 11).bind fun p =>
        (removeManaged p.1 10).map fun q => (p.2, q.2, chunkMapInv q.1))
      = some (true, true, false) :=
  ⟨by decide, by decide⟩

/-- C5 (code bug): `MemoryStore::read_block` returns `Ok(None)` for an absent
block, but `DirectoryStore::read_block` takes the aborting branch (`none`)
instead of returning normally, so the absent-block branch is not total for
every `DataStore` implementation. -/
theorem read_block_absent_behaviour :
    memReadBlock exBM5 (BlockKey.data 0) = Except.ok none ∧
      dirReadBlock [] 0 = none :=
  ⟨rfl, rfl⟩

/-- C7: when exactly one superblock copy is corrupt, `SuperBlock::read`
succeeds with the valid copy and rewrites the corrupt side so both copies
agree; when both copies are valid, the primary is returned and the file is
unchanged. -/
theorem superblock_read_repair :
    (∀ (sb : SuperBlockData) (n : Nat),
        sbRead ⟨SlotBytes.valid sb, SlotBytes.corrupt n⟩
          = Except.ok (sb, ⟨SlotBytes.valid sb, SlotBytes.valid sb⟩)) ∧
    (∀ (sb : SuperBlockData) (n : Nat),
        sbRead ⟨SlotBytes.corrupt n, SlotBytes.valid sb⟩
          = Except.ok (sb, ⟨SlotBytes.valid sb, SlotBytes.valid sb⟩)) ∧
    (∀ (sb sb2 : SuperBlockData),
        sbRead ⟨SlotBytes.valid sb, SlotBytes.valid sb2⟩
          = Except.ok (sb, ⟨SlotBytes.valid sb, SlotBytes.valid sb2⟩)) :=
  ⟨fun _ _ => rfl, fun _ _ => rfl, fun _ _ => rfl⟩

/-- C8: `managed_object_mut` never takes a `None`-returning path; for an ID
with no managed object in the current instance it aborts on the unwrap of the
absent map entry. -/
theorem managed_object_mut_never_returns_none :
    ∀ (r : Repo) (id : Nat),
      managedObjectMut r id ≠ some none ∧
      (∀ mm, alLookup r.managed r.instanceId = some mm →
        alLookup mm id = none → managedObjectMut r id = none) := by
  intro r id
  constructor
  · cases h1 : alLookup r.managed r.instanceId with
    | none => simp [managedObjectMut, h1]
    | some mm =>
        cases h2 : alLookup mm id with
        | none => simp [managedObjectMut, h1, h2]
        | some h => simp [managedObjectMut, h1, h2]
  · intro mm h1 h2
    simp [managedObjectMut, h1, h2]

/-- Witness for C8 at a repository whose current instance has no managed
objects. -/
theorem managed_object_mut_never_returns_none_witness :
    managedObjectMut exR8 3 ≠ some none ∧ managedObjectMut exR8 3 = none :=
  ⟨(managed_object_mut_never_returns_none exR8 3).1,
    (managed_object_mut_never_returns_none exR8 3).2 [] rfl rfl⟩

/-- C10: every `MemoryStore` operation returns `Ok` on every input, and a
written block is read back (overwriting any prior value). -/
theorem memory_store_total_ok :
    ∀ (bm : BlockMap) (key : BlockKey) (d : List Nat) (kind : BlockType),
      isOkE (memWriteBlock bm key d) = true ∧
      isOkE (memReadBlock bm key) = true ∧
      isOkE (memRemoveBlock bm key) = true ∧
      isOkE (memListBlocks bm kind) = true ∧
      ((memWriteBlock bm key d).toOption.map fun bm' => memReadBlock bm' key)
        = some (Except.ok (some d)) := by
  intro bm key d kind
  refine ⟨rfl, rfl, rfl, rfl, ?_⟩
  cases key with
  | data id =>
      simp [memWriteBlock, memReadBlock, Except.toOption, alLookup_alInsert_self]
  | lock id =>
      simp [memWriteBlock, memReadBlock, Except.toOption, alLookup_alInsert_self]
  | header id =>
      simp [memWriteBlock, memReadBlock, Except.toOption, alLookup_alInsert_self]
  | sup => simp [memWriteBlock, memReadBlock, Except.toOption]
  | version => simp [memWriteBlock, memReadBlock, Except.toOption]

theorem swapChunkRefs_lookup_of_not_mem (oldId newId : Nat) :
    ∀ (l : List Chunk) (cm cm' : List (Chunk × ChunkInfo)) (c : Chunk),
      swapChunkRefs oldId newId cm l = some cm' → c ∉ l →
      alLookup cm' c = alLookup cm c
  | [], cm, cm', c, hs, _ => by
      simp only [swapChunkRefs, Option.some.injEq] at hs
      subst hs; rfl
  | c0 :: rest, cm, cm', c, hs, hns => by
      simp only [swapChunkRefs] at hs
      cases hl : alLookup cm c0 with
      | none => rw [hl] at hs; cases hs
      | some info =>
          rw [hl] at hs
          have hne : c ≠ c0 := fun hcc => hns (hcc ▸ List.mem_cons_self c0 rest)
          have hnr : c ∉ rest := fun hcc => hns (List.mem_cons_of_mem c0 hcc)
          have ih := swapChunkRefs_lookup_of_not_mem oldId newId rest _ cm' c hs hnr
          rw [ih, alLookup_alInsert_ne _ c0 c _ hne]

theorem swapChunkRefs_lookup_of_mem (oldId newId : Nat) (hne : newId ≠ oldId) :
    ∀ (l : List Chunk) (cm cm' : List (Chunk × ChunkInfo)) (c : Chunk),
      swapChunkRefs oldId newId cm l = some cm' → c ∈ l →
      ∃ info, alLookup cm' c = some info ∧
        newId ∈ info.references ∧ oldId ∉ info.references
  | [], cm, cm', c, _, hmem => absurd hmem (List.not_mem_nil c)
  | c0 :: rest, cm, cm', c, hs, hmem => by
      simp only [swapChunkRefs] at hs
      cases hl : alLookup cm c0 with
      | none => rw [hl] at hs; cases hs
      | some info =>
          rw [hl] at hs
          by_cases hr : c ∈ rest
          · exact swapChunkRefs_lookup_of_mem oldId newId hne rest _ cm' c hs hr
          · have hc0 : c = c0 := by
              rcases List.mem_cons.mp hmem with hcc | hcc
              · exact hcc
              · exact absurd hcc hr
            subst hc0
            have hpres := swapChunkRefs_lookup_of_not_mem oldId newId rest _ cm' c hs hr
            refine ⟨{ info with references := insert newId (info.references.erase oldId) },
              ?_, ?_, ?_⟩
            · rw [hpres, alLookup_alInsert_self]
            · exact Finset.mem_insert_self newId _
            · intro hmo
              rcases Finset.mem_insert.mp hmo with hcc | hcc
              · exact hne hcc.symm
              · exact (Finset.not_mem_erase oldId _) hcc

/-- C4: `unmanaged_object_mut` performs the copy-on-write swap: afterwards any
pre-mutation clone of the handle fails `contains_unmanaged`, the returned
handle carries a freshly allocated handle ID distinct from the old one, and
every chunk in the handle's list has the new ID and not the old ID in its
reference set. -/
theorem unmanaged_object_mut_copy_on_write :
    ∀ (r : Repo) (h : ObjectHandle) (r' : Repo) (h' : ObjectHandle),
      unmanagedObjectMut r h = some (some (r', h')) →
      containsUnmanaged r' h = false ∧
      h'.handleId ≠ h.handleId ∧
      r.handleTable.contains h'.handleId = false ∧
      h'.chunks = h.chunks ∧
      ∀ c ∈ h.chunks, ∃ info, alLookup r'.state.chunks c = some info ∧
        h'.handleId ∈ info.references ∧ h.handleId ∉ info.references := by
  intro r h r' h' hm
  simp only [unmanagedObjectMut] at hm
  split at hm
  case isFalse => simp at hm
  case isTrue hc =>
    have ht : r.handleTable.contains h.handleId = true := by
      simp only [containsUnmanaged, Bool.and_eq_true] at hc
      exact hc.2
    have hne : r.handleTable.next.1 ≠ h.handleId :=
      IdTable.next_ne_of_contains r.handleTable h.handleId ht
    cases hsw : swapChunkRefs h.handleId r.handleTable.next.1 r.state.chunks h.chunks with
    | none => rw [hsw] at hm; cases hm
    | some cm =>
        rw [hsw] at hm
        simp only [Option.some.injEq, Prod.mk.injEq] at hm
        obtain ⟨hr', hh'⟩ := hm
        subst hr'
        subst hh'
        refine ⟨?_, hne, IdTable.next_not_contains r.handleTable, rfl, ?_⟩
        · simp [containsUnmanaged, IdTable.recycle_not_contains, Bool.and_false]
        · intro c hcmem
          exact swapChunkRefs_lookup_of_mem h.handleId r.handleTable.next.1 hne
            h.chunks r.state.chunks cm c hsw hcmem

/-- Witness for C4 at the concrete repository `exR4`. -/
theorem unmanaged_object_mut_copy_on_write_witness :
    containsUnmanaged exR4' exH4 = false ∧ exH4'.handleId ≠ exH4.handleId ∧
      exR4.handleTable.contains exH4'.handleId = false ∧
      exH4'.chunks = exH4.chunks := by
  have hw := unmanaged_object_mut_copy_on_write exR4 exH4 exR4' exH4' (by decide)
  exact ⟨hw.1, hw.2.1, hw.2.2.1, hw.2.2.2.1⟩

theorem scanChunks_error (readChunk : Chunk → ChunkReadResult)
    (hashFn : List Nat → Nat) :
    ∀ (l : List Chunk) (e : Err), scanChunks readChunk hashFn l = Except.error e →
      e ≠ Err.invalidData ∧ ∃ c ∈ l, readChunk c = ChunkReadResult.readErr e
  | [], e, hs => by simp [scanChunks] at hs
  | c :: rest, e, hs => by
      simp only [scanChunks] at hs
      split at hs
      · split at hs
        · rw [except_map_eq_error] at hs
          obtain ⟨hne, c', hcm, hcr⟩ := scanChunks_error readChunk hashFn rest e hs
          exact ⟨hne, c', List.mem_cons_of_mem c hcm, hcr⟩
        · obtain ⟨hne, c', hcm, hcr⟩ := scanChunks_error readChunk hashFn rest e hs
          exact ⟨hne, c', List.mem_cons_of_mem c hcm, hcr⟩
      · rename_i e0 hrc
        split at hs
        · rw [except_map_eq_error] at hs
          obtain ⟨hne, c', hcm, hcr⟩ := scanChunks_error readChunk hashFn rest e hs
          exact ⟨hne, c', List.mem_cons_of_mem c hcm, hcr⟩
        · rename_i hnid
          cases hs
          exact ⟨hnid, c, List.mem_cons_self c rest, hrc⟩

theorem scanChunks_ok_mem (readChunk : Chunk → ChunkReadResult)
    (hashFn : List Nat → Nat) :
    ∀ (l : List Chunk) (s : Finset Nat), scanChunks readChunk hashFn l = Except.ok s →
      ∀ hs, hs ∈ s ↔ ∃ c ∈ l, c.hash = hs ∧ chunkCorrupt readChunk hashFn c = true
  | [], s, hsc => by
      simp only [scanChunks, Except.ok.injEq] at hsc
      subst hsc
      simp
  | c :: rest, s, hsc => by
      simp only [scanChunks] at hsc
      split at hsc
      · rename_i data hrc
        split at hsc
        · rename_i hcond
          rw [except_map_eq_ok] at hsc
          obtain ⟨s0, hs0, hins⟩ := hsc
          have ih := scanChunks_ok_mem readChunk hashFn rest s0 hs0
          intro hs
          subst hins
          have hcc : chunkCorrupt readChunk hashFn c = true := by
            simp only [chunkCorrupt, hrc, Bool.or_eq_true, decide_eq_true_eq]
            exact hcond
          constructor
          · intro hmem
            rcases Finset.mem_insert.mp hmem with hh | hh
            · exact ⟨c, List.mem_cons_self c rest, hh.symm, hcc⟩
            · obtain ⟨c', hcm, hh', hcc'⟩ := (ih hs).mp hh
              exact ⟨c', List.mem_cons_of_mem c hcm, hh', hcc'⟩
          · intro hex
            obtain ⟨c', hcm, hh', hcc'⟩ := hex
            rcases List.mem_cons.mp hcm with hc' | hc'
            · subst hc'
              exact Finset.mem_insert.mpr (Or.inl hh'.symm)
            · exact Finset.mem_insert.mpr (Or.inr ((ih hs).mpr ⟨c', hc', hh', hcc'⟩))
        · rename_i hcond
          have ih := scanChunks_ok_mem readChunk hashFn rest s hsc
          intro hs
          have hcc : chunkCorrupt readChunk hashFn c = false := by
            simp only [chunkCorrupt, hrc, Bool.or_eq_false_iff, decide_eq_false_iff_not]
            push_neg at hcond
            exact ⟨fun hh => hh hcond.1, fun hh => hh hcond.2⟩
          rw [ih hs]
          constructor
          · intro hex
            obtain ⟨c', hcm, hh', hcc'⟩ := hex
            exact ⟨c', List.mem_cons_of_mem c hcm, hh', hcc'⟩
          · intro hex
            obtain ⟨c', hcm, hh', hcc'⟩ := hex
            rcases List.mem_cons.mp hcm with hc' | hc'
            · subst hc'
              rw [hcc] at hcc'
              cases hcc'
            · exact ⟨c', hc', hh', hcc'⟩
      · rename_i e0 hrc
        split at hsc
        · rename_i hid
          subst hid
          rw [except_map_eq_ok] at hsc
          obtain ⟨s0, hs0, hins⟩ := hsc
          have ih := scanChunks_ok_mem readChunk hashFn rest s0 hs0
          intro hs
          subst hins
          have hcc : chunkCorrupt readChunk hashFn c = true := by
            simp [chunkCorrupt, hrc]
          constructor
          · intro hmem
            rcases Finset.mem_insert.mp hmem with hh | hh
            · exact ⟨c, List.mem_cons_self c rest, hh.symm, hcc⟩
            · obtain ⟨c', hcm, hh', hcc'⟩ := (ih hs).mp hh
              exact ⟨c', List.mem_cons_of_mem c hcm, hh', hcc'⟩
          · intro hex
            obtain ⟨c', hcm, hh', hcc'⟩ := hex
            rcases List.mem_cons.mp hcm with hc' | hc'
            · subst hc'
              exact Finset.mem_insert.mpr (Or.inl hh'.symm)
            · exact Finset.mem_insert.mpr (Or.inr ((ih hs).mpr ⟨c', hc', hh', hcc'⟩))
        · cases hsc

theorem corruptObjects_mem (instId : Nat) (cc : Finset Nat) :
    ∀ (mm : List (Nat × ObjectHandle)) (a b : Nat),
      (a, b) ∈ corruptObjects instId cc mm ↔
        a = instId ∧ ∃ h, (b, h) ∈ mm ∧ ∃ c ∈ h.chunks, c.hash ∈ cc
  | [], a, b => by simp [corruptObjects]
  | (oid, h0) :: rest, a, b => by
      simp only [corruptObjects]
      split
      · rename_i hany
        rw [List.any_eq_true] at hany
        obtain ⟨c0, hc0m, hc0⟩ := hany
        rw [decide_eq_true_eq] at hc0
        constructor
        · intro hmem
          rcases Finset.mem_insert.mp hmem with hh | hh
          · obtain ⟨ha, hb⟩ := Prod.mk.inj hh
            exact ⟨ha, h0, by rw [hb]; exact List.mem_cons_self _ _, c0, hc0m, hc0⟩
          · obtain ⟨ha, h, hhm, hex⟩ := (corruptObjects_mem instId cc rest a b).mp hh
            exact ⟨ha, h, List.mem_cons_of_mem _ hhm, hex⟩
        · intro hex
          obtain ⟨ha, h, hhm, hex2⟩ := hex
          rcases List.mem_cons.mp hhm with hh | hh
          · obtain ⟨hb, -⟩ := Prod.mk.inj hh
            exact Finset.mem_insert.mpr (Or.inl (by rw [ha, hb]))
          · exact Finset.mem_insert.mpr
              (Or.inr ((corruptObjects_mem instId cc rest a b).mpr ⟨ha, h, hh, hex2⟩))
      · rename_i hany
        rw [Bool.not_eq_true, List.any_eq_false] at hany
        rw [corruptObjects_mem instId cc rest a b]
        constructor
        · intro hex
          obtain ⟨ha, h, hhm, hex2⟩ := hex
          exact ⟨ha, h, List.mem_cons_of_mem _ hhm, hex2⟩
        · intro hex
          obtain ⟨ha, h, hhm, c, hcm, hcc⟩ := hex
          rcases List.mem_cons.mp hhm with hh | hh
          · obtain ⟨-, hh0⟩ := Prod.mk.inj hh
            subst hh0
            exact absurd (decide_eq_true hcc) (hany c hcm)
          · exact ⟨ha, h, hh, c, hcm, hcc⟩

theorem corruptManagedOf_mem (cc : Finset Nat) :
    ∀ (managed : List (Nat × List (Nat × ObjectHandle))) (a b : Nat),
      (a, b) ∈ corruptManagedOf cc managed ↔
        ∃ mm, (a, mm) ∈ managed ∧ ∃ h, (b, h) ∈ mm ∧ ∃ c ∈ h.chunks, c.hash ∈ cc
  | [], a, b => by simp [corruptManagedOf]
  | (instId, mm0) :: rest, a, b => by
      simp only [corruptManagedOf, Finset.mem_union]
      rw [corruptObjects_mem instId cc mm0 a b, corruptManagedOf_mem cc rest a b]
      constructor
      · intro hor
        rcases hor with ⟨ha, hex⟩ | ⟨mm, hmm, hex⟩
        · exact ⟨mm0, by rw [ha]; exact List.mem_cons_self _ _, hex⟩
        · exact ⟨mm, List.mem_cons_of_mem _ hmm, hex⟩
      · intro hex
        obtain ⟨mm, hmm, hex2⟩ := hex
        rcases List.mem_cons.mp hmm with hh | hh
        · obtain ⟨ha, hmm0⟩ := Prod.mk.inj hh
          subst hmm0
          exact Or.inl ⟨ha, hex2⟩
        · exact Or.inr ⟨mm, hh, hex2⟩

/-- C6: `verify` never raises `InvalidData`; an error return is an underlying
read error from some chunk; on success `corrupt_chunks` is exactly the set of
hashes of chunks whose read fails with `InvalidData` or returns data of the
wrong length or hash, and a managed object is in `corrupt_managed` exactly
when some hash of its chunk list is in `corrupt_chunks`. -/
theorem verify_report_characterization :
    ∀ (r : Repo) (readChunk : Chunk → ChunkReadResult) (hashFn : List Nat → Nat),
      (∀ e, verify r readChunk hashFn = Except.error e →
          e ≠ Err.invalidData ∧
          ∃ c ∈ r.state.chunks.map (·.1), readChunk c = ChunkReadResult.readErr e) ∧
      (∀ rep, verify r readChunk hashFn = Except.ok rep →
          (∀ hs, hs ∈ rep.corruptChunks ↔
              ∃ c ∈ r.state.chunks.map (·.1), c.hash = hs ∧
                chunkCorrupt readChunk hashFn c = true) ∧
          (∀ instId oid, (instId, oid) ∈ rep.corruptManaged ↔
              ∃ mm, (instId, mm) ∈ r.managed ∧ ∃ h, (oid, h) ∈ mm ∧
                ∃ c ∈ h.chunks, c.hash ∈ rep.corruptChunks)) := by
  intro r readChunk hashFn
  constructor
  · intro e hv
    simp only [verify] at hv
    split at hv
    · rename_i e0 hsc
      cases hv
      exact scanChunks_error readChunk hashFn _ e hsc
    · rename_i cc hsc
      split at hv <;> cases hv
  · intro rep hv
    simp only [verify] at hv
    split at hv
    · cases hv
    · rename_i cc hsc
      have hmem := scanChunks_ok_mem readChunk hashFn _ cc hsc
      split at hv
      · rename_i hemp
        cases hv
        refine ⟨hmem, ?_⟩
        intro instId oid
        simp only [Finset.not_mem_empty, false_iff]
        intro hex
        obtain ⟨mm, hmm, h, hhm, c, hcm, hcc⟩ := hex
        rw [hemp] at hcc
        exact absurd hcc (Finset.not_mem_empty _)
      · cases hv
        exact ⟨hmem, fun instId oid => corruptManagedOf_mem cc r.managed instId oid⟩

/-- Witness for C6: on the concrete repository `exR6` whose only chunk read
fails with an I/O error, `verify` raises that error, which is not
`InvalidData`, and it comes from a chunk of the chunk map. -/
theorem verify_report_characterization_witness :
    Err.io ≠ Err.invalidData ∧
      ∃ c ∈ exR6.state.chunks.map (·.1),
        exReadChunk c = ChunkReadResult.readErr Err.io :=
  (verify_report_characterization exR6 exReadChunk exHashFn).1 Err.io rfl

theorem commit_preserves_managed (r : Repo) (freshId : Nat) (r' : Repo)
    (res : Option Err) (hc : commit r freshId = some (r', res)) :
    r'.managed = r.managed ∧ r'.instanceId = r.instanceId := by
  simp only [commit] at hc
  split at hc
  · cases hc
  · rename_i r1 hrs
    obtain ⟨f1, f2, f3, f4, f5, f6, f7⟩ := removeSavepointObjects_fields _ r r1 hrs
    split at hc
    · rename_i r2 e2 hw
      obtain ⟨w1, w2, w3, w4, w5, w6, w7, w8, w9⟩ :=
        writeSerializedHeader_fields r1 freshId _ r2 (some e2) hw
      simp only [Option.some.injEq, Prod.mk.injEq] at hc
      obtain ⟨hr', -⟩ := hc
      subst hr'
      exact ⟨rfl, w6.trans f7⟩
    · rename_i r2 hw
      obtain ⟨w1, w2, w3, w4, w5, w6, w7, w8, w9⟩ :=
        writeSerializedHeader_fields r1 freshId _ r2 none hw
      simp only [Option.some.injEq, Prod.mk.injEq] at hc
      obtain ⟨hr', -⟩ := hc
      subst hr'
      exact ⟨w3.trans f5, w6.trans f7⟩

theorem rollback_of_readStoredHeader (r : Repo) (h : Header)
    (hv : readStoredHeader r = some h) :
    rollback r = (restoreHeader r h, none) := by
  simp only [readStoredHeader] at hv
  split at hv
  · rename_i h0 hb
    cases hv
    simp [rollback, hb, decodeData, deserializeHeader]
  · cases hv

/-- C9 counterexample: on `exR9`, `set_instance 1` establishes the invariant
that the managed map has an entry for the current instance, but the public
operation `rollback` then installs the committed header — whose managed map
only knows instance 0 — and the invariant is false afterwards, so the next
`managed_map` unwrap would fire. -/
theorem rollback_breaks_instance_key_invariant :
    instanceKeyInv (setInstance exR9 1) = true ∧
      (rollback (setInstance exR9 1)).2 = none ∧
      instanceKeyInv (rollback (setInstance exR9 1)).1 = false :=
  ⟨by decide, by decide, by decide⟩

/-- C9 amended: `set_instance` establishes the instance-key invariant
unconditionally; `commit` preserves it on both its success and its error path
(it never changes the managed map or the current instance); and a successful
`rollback` installs the stored header's managed map verbatim, so it preserves
the invariant exactly when that header's managed map has an entry for the
current instance — which fails for headers committed before the current
instance was created. -/
theorem instance_key_invariant_amended :
    (∀ (r : Repo) (id : Nat), instanceKeyInv (setInstance r id) = true) ∧
    (∀ (r : Repo) (freshId : Nat) (r' : Repo) (res : Option Err),
        commit r freshId = some (r', res) →
        instanceKeyInv r = true → instanceKeyInv r' = true) ∧
    (∀ (r : Repo) (h : Header), readStoredHeader r = some h →
        rollback r = (restoreHeader r h, none) ∧
        instanceKeyInv (restoreHeader r h)
          = (alLookup h.managed r.instanceId).isSome) := by
  refine ⟨?_, ?_, ?_⟩
  · intro r id
    simp only [instanceKeyInv, setInstance]
    cases hl : alLookup r.managed id with
    | some mm => simp [hl]
    | none => simp [hl, alLookup_alInsert_self]
  · intro r freshId r' res hc hinv
    obtain ⟨hm, hi⟩ := commit_preserves_managed r freshId r' res hc
    simpa [instanceKeyInv, hm, hi] using hinv
  · intro r h hv
    exact ⟨rollback_of_readStoredHeader r h hv, rfl⟩

/-- Witness for the amended C9 theorem: applying the rollback clause at the
concrete committed repository `exR9`. -/
theorem instance_key_invariant_amended_witness :
    rollback exR9 = (restoreHeader exR9 exHdr, none) ∧
      instanceKeyInv (restoreHeader exR9 exHdr)
        = (alLookup exHdr.managed exR9.instanceId).isSome :=
  instance_key_invariant_amended.2.2 exR9 exHdr (by decide)

end AcidStore
